import Mathlib

set_option maxHeartbeats 1000000
set_option maxRecDepth 100000

/-!
Verification development for the manim-ai render pipeline.

The definitions below are shallow embeddings of the TypeScript sources:
`apps/api-gateway/src/models/user.model.ts` (quota gate and usage store),
`apps/api-gateway/src/services/manim.service.ts` (render executor),
`apps/api-gateway/src/services/gemini.service.ts` (source normalizer) and
the storage service (`StorageService`).  JavaScript exceptions are modelled
with `Except`, promises by the event that settles them, and MongoDB /
MinIO collaborators by explicit state or oracle functions.
-/

/-! ### Quota gate (`UserModel.canGenerateVideos`, user.model.ts:154-198) -/

/-- The `SubscriptionPlan` enum (user.model.ts:6-10); the enum values are the
strings "basic" / "intermediate" / "advanced". -/
inductive SubscriptionPlan
| basic
| intermediate
| advanced
deriving DecidableEq

/-- The wire string of a `SubscriptionPlan` value, as interpolated by the
template literal in user.model.ts:190. -/
def planKey : SubscriptionPlan → String
| .basic => "basic"
| .intermediate => "intermediate"
| .advanced => "advanced"

/-- The fields of `ISubscriptionPlan` (user.model.ts:12-19) that
`canGenerateVideos` reads; `startDate` / `endDate` are unused there. -/
structure Subscription where
  plan : SubscriptionPlan
  isActive : Bool
  videosGenerated : Nat
  maxVideosPerMonth : Nat
deriving DecidableEq

/-- One entry of `PLAN_LIMITS` (user.model.ts:49-65). -/
structure PlanLimit where
  maxVideosPerMonth : Nat
  maxComplexity : String
  maxDuration : Nat
deriving DecidableEq

/-- The table `PLAN_LIMITS` (user.model.ts:49-65). -/
def PLAN_LIMITS : SubscriptionPlan → PlanLimit
| .basic => ⟨5, "basic", 30⟩
| .intermediate => ⟨20, "intermediate", 60⟩
| .advanced => ⟨100, "advanced", 120⟩

/-- JavaScript `Array.prototype.indexOf` on an array of strings: index of the
first occurrence, `-1` when absent. -/
def indexOfStr : List String → String → Int
| [], _ => -1
| x :: xs, s =>
  if x = s then 0
  else if indexOfStr xs s = -1 then -1 else indexOfStr xs s + 1

/-- The array `complexityOrder` (user.model.ts:183). -/
def complexityOrder : List String := ["basic", "intermediate", "advanced"]

/-- The result object `{canGenerate, reason?, videosLeft?}` of
`canGenerateVideos` (user.model.ts:157).  `videosLeft` is a JS number,
modelled as `Int`. -/
structure CanGenerateResult where
  canGenerate : Bool
  reason : Option String
  videosLeft : Option Int
deriving DecidableEq

/-- Model of `UserModel.canGenerateVideos` (user.model.ts:154-198) for an already
looked-up user; the preceding `findOne` plus its "User not found!" throw is
the document lookup, outside the usage-record decision modelled here.  A JS
`throw new Error(...)` is modelled as `Except.error` with the thrown
message.  The `currentMonth` date computation in the source is dead code
and omitted. -/
def canGenerateVideos (sub : Subscription) (complexity : String) :
    Except String CanGenerateResult :=
  if !sub.isActive then
    Except.error "Your subscription is inactive!"
  else if sub.videosGenerated > sub.maxVideosPerMonth then
    Except.ok ⟨false, some "Your montly limit has reached!", some 0⟩
  else
    let planLimits := PLAN_LIMITS sub.plan
    let userMaxComplexity := indexOfStr complexityOrder planLimits.maxComplexity
    let requestedComplexity := indexOfStr complexityOrder complexity
    if requestedComplexity > userMaxComplexity then
      Except.ok ⟨false,
        some ("Complexity " ++ complexity ++ " not allowed for " ++ planKey sub.plan), none⟩
    else
      Except.ok ⟨true, none,
        some ((sub.maxVideosPerMonth : Int) - (sub.videosGenerated : Int))⟩

/-- Discriminator for a non-throwing outcome of `canGenerateVideos`. -/
def exceptIsOk : Except String CanGenerateResult → Bool
| .ok _ => true
| .error _ => false

/-! ### Usage store (`UserModel.increaseVideoCount`, user.model.ts:200-208) -/

/-- A BSON value used as the `_id` filter of an `updateOne` call.
`objectId n` models `new ObjectId(userId)` (an ObjectId value);
`strObject s` models `new Object(userId)` — JavaScript `Object("s")` wraps
the string, and the driver serializes it as a plain string value, which
under BSON's type-bracketed equality never equals a stored `ObjectId`. -/
inductive BsonId
| objectId (n : Nat)
| strObject (s : String)
deriving DecidableEq

/-- Whether an `_id` filter value matches a stored `ObjectId` (modelled as
`Nat`): an ObjectId matches on equality; a string value never matches. -/
def bsonIdMatches : BsonId → Nat → Bool
| .objectId n, m => n == m
| .strObject _, _ => false

/-- One document of the `users` collection, restricted to the fields
`increaseVideoCount` touches. -/
structure StoredUser where
  uid : Nat
  subscription : Subscription
  updatedAt : Nat
deriving DecidableEq

/-- MongoDB `updateOne`: applies `f` to the first document matching the
filter, leaves everything else unchanged (no upsert). -/
def updateFirst (filter : BsonId) (f : StoredUser → StoredUser) :
    List StoredUser → List StoredUser
| [] => []
| u :: us =>
  if bsonIdMatches filter u.uid then f u :: us
  else u :: updateFirst filter f us

/-- Model of `UserModel.increaseVideoCount` (user.model.ts:200-208): an `updateOne`
whose filter is `{ _id: new Object(userId) }` — note `Object`, not
`ObjectId` — with `$inc subscription.videosGenerated` by 1 and
`$set updatedAt` to the current time. -/
def increaseVideoCount (userId : String) (now : Nat)
    (db : List StoredUser) : List StoredUser :=
  updateFirst (BsonId.strObject userId)
    (fun u =>
      { u with
        subscription :=
          { u.subscription with
            videosGenerated := u.subscription.videosGenerated + 1 },
        updatedAt := now })
    db

/-! ### Render executor (`ManimService`, manim.service.ts:41-125) -/

/-- The first event that settles the `runManim` promise: the child process
`close` event with an exit code, the `error` (spawn failure) event, or the
3000 ms timeout timer. -/
inductive ProcOutcome
| exited (code : Int)
| spawnFailed
| timedOut
deriving DecidableEq

/-- Model of `ManimService.runManim` (manim.service.ts:81-125) as a function of the
event that settles its promise first: exit code 0 resolves with the output
path; a non-zero exit, a spawn error, or the timeout reject with the
corresponding message.  (The timer is never cleared, but a promise settles
only once, so only the first event matters.) -/
def runManim (outcome : ProcOutcome) (outputPath : String) :
    Except String String :=
  match outcome with
  | .exited code =>
    if code == 0 then Except.ok outputPath
    else Except.error "Manim process failed with code"
  | .spawnFailed => Except.error "Failed to start manim process"
  | .timedOut => Except.error "Video generation timeout"

/-- Whether the `fs.writeFile` / `fs.unlink` calls inside `generateVideo`
throw (`some msg` = rejects with that message). -/
structure FsBehavior where
  writeError : Option String
  unlinkError : Option String
deriving DecidableEq

/-- The `VideoGenerationResponse` object (manim.service.ts:13-18). -/
structure VideoGenerationResponse where
  videoId : String
  status : String
  videoUrl : Option String
  error : Option String
deriving DecidableEq

/-- The observable run of one `generateVideo` call: the returned response
plus whether the temp source file deletion was attempted and succeeded. -/
structure GenerateVideoRun where
  response : VideoGenerationResponse
  unlinkAttempted : Bool
  tempFileDeleted : Bool
deriving DecidableEq

/-- Model of `ManimService.generateVideo` (manim.service.ts:41-70).  The source binds
`const outputPath = this.runManim(...)` WITHOUT `await` (line 52), so the
promise is created and dropped: the renderer outcome cannot influence the
returned response, which is `status:'completed'` whenever `writeFile` and
`unlink` succeed.  The single try/catch turns any `writeFile`/`unlink`
rejection into `status:'failed'` with that error's message. -/
def generateVideo (videoId : String) (fsb : FsBehavior)
    (renderOutcome : ProcOutcome) : GenerateVideoRun :=
  match fsb.writeError with
  | some msg => ⟨⟨videoId, "failed", none, some msg⟩, false, false⟩
  | none =>
    let _droppedPromise := runManim renderOutcome ""
    match fsb.unlinkError with
    | some msg => ⟨⟨videoId, "failed", none, some msg⟩, true, false⟩
    | none =>
      ⟨⟨videoId, "completed", some ("/api/videos/" ++ videoId ++ ".mp4"), none⟩,
        true, true⟩

/-! ### Artifact store (`StorageService.getVideoUrl`, StorageService:159-178) -/

/-- The behavior of `minioClient.presignedGetObject` for one call: it can
resolve with a URL, reject asynchronously (its returned promise fails, e.g.
while fetching the bucket region), or throw synchronously. -/
inductive AsyncResult
| resolved (url : String)
| rejected (msg : String)
| thrownSync (msg : String)
deriving DecidableEq

/-- The deterministic object key `videos/{userId}/{videoId}.mp4`. -/
def videoObjectName (videoId userId : String) : String :=
  "videos/" ++ userId ++ "/" ++ videoId ++ ".mp4"

/-- Model of `StorageService.getVideoUrl` (source lines 159-178).  The source runs
`const url = this.minioClient.presignedGetObject(...)` with no `await`
inside a try/catch and returns `url`: a synchronous throw is caught and
yields `""`, but a rejected promise is adopted by the async function and
propagates to the caller uncaught.  The function reads no mutable state. -/
def getVideoUrl (videoId userId : String) (expirySeconds : Nat)
    (presign : String → Nat → AsyncResult) : Except String String :=
  match presign (videoObjectName videoId userId) expirySeconds with
  | .resolved url => Except.ok url
  | .rejected msg => Except.error msg
  | .thrownSync _ => Except.ok ""

/-- A presign oracle whose promise rejects (used only for the C8
counterexample). -/
def rejectingPresign : String → Nat → AsyncResult :=
  fun _ _ => AsyncResult.rejected "connection reset"

/-- A presign oracle that throws synchronously (used only for the C8
witness). -/
def throwingPresign : String → Nat → AsyncResult :=
  fun _ _ => AsyncResult.thrownSync "invalid expiry"

/-! ### Source normalizer (`GeminiService`, gemini.service.ts:138-303)

JavaScript string methods are modelled over `List Char`: `includes`,
`startsWith`, `trim`, `toLowerCase`, `split("\n")`, `join("\n")`, and the
three duration regexes.  All definitions are total, as the originals are.
-/

/-- Whitespace as matched by JS `trim` and the regex class `\s` (restricted
to the four characters that occur in this pipeline's inputs). -/
def isWs (c : Char) : Bool := c == ' ' || c == '\t' || c == '\n' || c == '\r'

/-- JavaScript `l.startsWith(pat)` over character lists. -/
def startsWithL : List Char → List Char → Bool
| _, [] => true
| [], _ :: _ => false
| a :: as, b :: bs => a == b && startsWithL as bs

/-- JavaScript `l.includes(pat)` over character lists. -/
def containsL (pat : List Char) : List Char → Bool
| [] => pat.isEmpty
| c :: cs => startsWithL (c :: cs) pat || containsL pat cs

/-- Leading-whitespace removal. -/
def trimLeftWs (l : List Char) : List Char := l.dropWhile isWs

/-- JavaScript `l.trim()`: drop whitespace from both ends. -/
def trimWs (l : List Char) : List Char :=
  ((trimLeftWs l).reverse.dropWhile isWs).reverse

/-- JavaScript `l.toLowerCase()` (ASCII, which is all the patterns use). -/
def toLowerL (l : List Char) : List Char := l.map Char.toLower

/-- JavaScript `s.split("\n")`: always at least one (possibly empty) line. -/
def splitLines : List Char → List (List Char)
| [] => [[]]
| c :: cs =>
  if c == '\n' then [] :: splitLines cs
  else
    match splitLines cs with
    | [] => [[c]]
    | L :: Ls => (c :: L) :: Ls

/-- JavaScript `lines.join("\n")`. -/
def joinLines : List (List Char) → List Char
| [] => []
| [l] => l
| l :: l₂ :: ls => l ++ '\n' :: joinLines (l₂ :: ls)

/-- Split at the first occurrence of (non-empty) `pat`: returns the text
before it and the text after it, or `none` when `pat` does not occur. -/
def splitOnFirst (pat : List Char) : List Char → Option (List Char × List Char)
| [] => none
| c :: cs =>
  if startsWithL (c :: cs) pat then some ([], (c :: cs).drop pat.length)
  else
    match splitOnFirst pat cs with
    | some (a, b) => some (c :: a, b)
    | none => none

/-- The code-fence marker. -/
def fenceMark : List Char := "```".toList

/-- Modelled from the spec: the fenced-code-block regexes at
gemini.service.ts:156-157 are corrupted in the source snapshot (they appear
as six bare backticks, their fence-delimited contents stripped), so this
follows spec §4.1 step 2(a): when the opening-fence line carries a language
tag (e.g. "```python"), the tag line is dropped. -/
def stripLangTag (block : List Char) : List Char :=
  match splitOnFirst ['\n'] block with
  | none => block
  | some (first, rest) => if first.all Char.isAlpha then rest else block

/-- Modelled from the spec: first fenced code block of the raw text —
content between the first pair of "```" fences, language tag dropped,
trimmed — or `none` when no closed fenced block exists (spec §4.1 step
2(a); the concrete regexes are corrupted in the snapshot, see
`stripLangTag`). -/
def firstFencedBlockL (s : List Char) : Option (List Char) :=
  match splitOnFirst fenceMark s with
  | none => none
  | some (_, afterOpen) =>
    match splitOnFirst fenceMark afterOpen with
    | none => none
    | some (block, _) => some (trimWs (stripLangTag block))

/-- The line filter of the no-fence fallback (gemini.service.ts:170-180):
keep lines containing one of the structural signals. -/
def pythonSignalLine (line : List Char) : Bool :=
  containsL "class ".toList line || containsL "def construct".toList line ||
  containsL "from manim".toList line || containsL "import manim".toList line ||
  containsL "self.play".toList line || containsL "self.add".toList line

/-- Model of `GeminiService.generateFallbackCode` (gemini.service.ts:288-303),
the fixed fallback script. -/
def generateFallbackCodeL : List Char :=
  ("from manim import *\n\nclass GeneratedAnimation(Scene):\n    def construct(self):\n        # Basic animation fallback\n        text = Text(\"Generated Animation\")\n        self.play(Write(text))\n        self.wait(2)\n        \n        circle = Circle(radius=1, color=BLUE)\n        self.play(Create(circle))\n        self.wait(1)\n        \n        self.play(FadeOut(text), FadeOut(circle))").toList

/-- Code extraction of `parseGeminiResponse` (gemini.service.ts:156-187):
fenced block first; if absent (or the block trims to the empty string, which
the source's `if (!code)` treats as no match), the structural-signal lines;
if that is empty too, the fixed fallback script. -/
def extractCodeL (response : List Char) : List Char :=
  let fenced :=
    match firstFencedBlockL response with
    | some c => c
    | none => []
  if !fenced.isEmpty then fenced
  else
    let pythonLines := (splitLines response).filter pythonSignalLine
    if !pythonLines.isEmpty then joinLines pythonLines
    else generateFallbackCodeL

/-- The framework import pattern tested by `cleanManimCode`. -/
def importPat : List Char := "from manim import".toList

/-- Step 1 of `GeminiService.cleanManimCode` (gemini.service.ts:231-234):
prepend the import when missing. -/
def ensureImport (code : List Char) : List Char :=
  if containsL importPat code then code
  else "from manim import *\n\n".toList ++ code

/-- Step 2 of `GeminiService.cleanManimCode` (gemini.service.ts:236-252):
when the code lacks `class ` or `Scene`, wrap all non-import, non-blank
lines in a synthesized class/method skeleton with 8-space indentation. -/
def ensureSceneClass (code : List Char) : List Char :=
  if !containsL "class ".toList code || !containsL "Scene".toList code then
    "from manim import *\n\nclass GeneratedAnimation(Scene):\n    def construct(self):\n".toList
      ++ joinLines (((splitLines code).filter (fun line =>
            !containsL "from manim".toList line &&
            !containsL "import".toList line &&
            !(trimWs line).isEmpty)).map
          (fun line => "        ".toList ++ line))
  else code

/-- The line-by-line loop of `GeminiService.fixIndentation`
(gemini.service.ts:260-286), with the mutable `inClass` / `inMethod` flags
threaded as arguments (`inClass` is written but never read, as in the
source). -/
def fixLines : Bool → Bool → List (List Char) → List (List Char)
| _, _, [] => []
| inClass, inMethod, line :: rest =>
  if containsL "class ".toList line && containsL "Scene".toList line then
    line :: fixLines true inMethod rest
  else if containsL "def construct(self):".toList line then
    ("    ".toList ++ trimWs line) :: fixLines inClass true rest
  else if inMethod && !(trimWs line).isEmpty then
    (if !startsWithL line "        ".toList && !startsWithL line "    def".toList then
       "        ".toList ++ trimWs line
     else line) :: fixLines inClass inMethod rest
  else line :: fixLines inClass inMethod rest

/-- Model of `GeminiService.fixIndentation` (gemini.service.ts:260-286). -/
def fixIndentationL (code : List Char) : List Char :=
  joinLines (fixLines false false (splitLines code))

/-- Model of `GeminiService.cleanManimCode` (gemini.service.ts:230-258): the
repair of the import, then of the class wrapper, then of indentation. -/
def cleanManimCodeL (code : List Char) : List Char :=
  fixIndentationL (ensureSceneClass (ensureImport code))

/-- Digit-prefix splitter (the `\d+` of the duration regexes). -/
def takeDigits : List Char → List Char × List Char
| [] => ([], [])
| c :: cs =>
  if c.isDigit then
    match takeDigits cs with
    | (d, r) => (c :: d, r)
  else ([], c :: cs)

/-- JavaScript `parseInt` on a non-empty digit string. -/
def digitsToNat (l : List Char) : Nat :=
  l.foldl (fun n c => 10 * n + (c.toNat - 48)) 0

/-- Case-insensitive literal consumption: drops `lit` (given lowercase)
from the front of the text, or fails. -/
def ciDropLit : List Char → List Char → Option (List Char)
| [], l => some l
| _ :: _, [] => none
| p :: ps, c :: cs => if c.toLower == p then ciDropLit ps cs else none

/-- One anchored attempt of `/(?:duration|time):\s*(\d+)/i`
(gemini.service.ts:194) at the current position. -/
def pat1At (l : List Char) : Option Nat :=
  let afterKey :=
    match ciDropLit "duration".toList l with
    | some r => some r
    | none => ciDropLit "time".toList l
  match afterKey with
  | some (':' :: r) =>
    match takeDigits (r.dropWhile isWs) with
    | ([], _) => none
    | (d, _) => some (digitsToNat d)
  | _ => none

/-- First match of `/(?:duration|time):\s*(\d+)/i`: try every position left
to right. -/
def matchPat1 : List Char → Option Nat
| [] => none
| c :: cs =>
  match pat1At (c :: cs) with
  | some d => some d
  | none => matchPat1 cs

/-- One anchored attempt of `/(\d+)\s*seconds?/i` (gemini.service.ts:195);
the optional trailing "s" does not affect the captured digits. -/
def pat2At (l : List Char) : Option Nat :=
  match takeDigits l with
  | ([], _) => none
  | (d, r) =>
    match ciDropLit "second".toList (r.dropWhile isWs) with
    | some _ => some (digitsToNat d)
    | none => none

/-- First match of `/(\d+)\s*seconds?/i`. -/
def matchPat2 : List Char → Option Nat
| [] => none
| c :: cs =>
  match pat2At (c :: cs) with
  | some d => some d
  | none => matchPat2 cs

/-- One anchored attempt of `/takes?\s*(\d+)/i` (gemini.service.ts:196).
When the optional "s" is present but digits do not follow, backtracking
cannot succeed either (the "s" itself is neither whitespace nor a digit),
so consuming it greedily is faithful. -/
def pat3At (l : List Char) : Option Nat :=
  match ciDropLit "take".toList l with
  | none => none
  | some r =>
    let r₁ :=
      match r with
      | c :: cs => if c.toLower == 's' then cs else c :: cs
      | [] => []
    match takeDigits (r₁.dropWhile isWs) with
    | ([], _) => none
    | (d, _) => some (digitsToNat d)

/-- First match of `/takes?\s*(\d+)/i`. -/
def matchPat3 : List Char → Option Nat
| [] => none
| c :: cs =>
  match pat3At (c :: cs) with
  | some d => some d
  | none => matchPat3 cs

/-- The first captured value of each duration pattern, in source order
(gemini.service.ts:193-197). -/
def durationCandidates (response : List Char) : List (Option Nat) :=
  [matchPat1 response, matchPat2 response, matchPat3 response]

/-- Whether a pattern's captured value passes the `> 0 && <= 300` bounds
check (gemini.service.ts:204). -/
def acceptable : Option Nat → Bool
| some d => decide (0 < d) && decide (d ≤ 300)
| none => false

/-- The loop of gemini.service.ts:200-210: take the first pattern whose
captured value lies in (0, 300]; otherwise the default 10. -/
def pickDuration : List (Option Nat) → Nat
| [] => 10
| o :: rest =>
  match o with
  | some d => if 0 < d ∧ d ≤ 300 then d else pickDuration rest
  | none => pickDuration rest

/-- Duration extraction of `parseGeminiResponse`. -/
def extractDurationL (response : List Char) : Nat :=
  pickDuration (durationCandidates response)

/-- The description line filter (gemini.service.ts:146-154). -/
def descriptionLine (line : List Char) : Bool :=
  decide ((trimWs line).length > 20) && !containsL fenceMark line &&
  !containsL "duration".toList (toLowerL line) &&
  !containsL "code".toList (toLowerL line) && !(trimWs line).isEmpty

/-- The fallback description (gemini.service.ts:154). -/
def defaultDescription : List Char :=
  "Mathematical animation generated with Manim".toList

/-- JavaScript `\w` (ASCII word character). -/
def isWordChar (c : Char) : Bool := c.isAlphanum || c == '_'

/-- The `code` result field of `parseGeminiResponse` (code extraction, then
`cleanManimCode`, then the final `code || generateFallbackCode()` guard of
gemini.service.ts:213). -/
def normalizeCodeL (response : List Char) : List Char :=
  let code := cleanManimCodeL (extractCodeL response)
  if code.isEmpty then generateFallbackCodeL else code

/-- The result record of `parseGeminiResponse` over character lists. -/
structure ParsedL where
  code : List Char
  description : List Char
  estimatedDuration : Nat
deriving DecidableEq

/-- Model of `GeminiService.parseGeminiResponse` (gemini.service.ts:138-228)
over character lists.  The surrounding try/catch of the source is modelled
away: every step here is a total function, so the catch branch is
unreachable. -/
def parseGeminiResponseL (response : List Char) : ParsedL :=
  let description :=
    ((splitLines (trimWs response)).find? descriptionLine).getD defaultDescription
  { code := normalizeCodeL response
    description :=
      trimWs ((description.dropWhile (fun c => !isWordChar c)).take 200)
    estimatedDuration := extractDurationL response }

/-- The result object of `parseGeminiResponse` at the `String` level. -/
structure ParsedResponse where
  code : String
  description : String
  estimatedDuration : Nat
deriving DecidableEq

/-- Model of `GeminiService.parseGeminiResponse` on `String`. -/
def parseGeminiResponse (response : String) : ParsedResponse :=
  ⟨⟨(parseGeminiResponseL response.toList).code⟩,
   ⟨(parseGeminiResponseL response.toList).description⟩,
   (parseGeminiResponseL response.toList).estimatedDuration⟩

/-- JavaScript `s.includes(pat)` on `String`. -/
def strIncludes (s pat : String) : Bool := containsL pat.toList s.toList

/-- Model of `GeminiService.cleanManimCode` on `String`. -/
def cleanManimCode (code : String) : String := ⟨cleanManimCodeL code.toList⟩

/-- First fenced code block on `String`. -/
def firstFencedBlock (s : String) : Option String :=
  (firstFencedBlockL s.toList).map (fun l => ⟨l⟩)

/-- Code extraction on `String`. -/
def extractCode (s : String) : String := ⟨extractCodeL s.toList⟩

/-- A raw model response carrying one fenced code block (used only for the
C5 counterexample and witness). -/
def sampleRaw : String := "```python\ncircle = Circle(radius=1)\n```"

/-! ### Theorems about the quota gate -/

/-- C3: for an active account whose requested tier passes the complexity
gate, `videosGenerated = maxVideosPerMonth` still yields `canGenerate = true`
(with 0 videos left), while `videosGenerated = maxVideosPerMonth + 1` yields
`canGenerate = false` with the monthly-limit reason and remaining count 0:
the monthly-limit rule (user.model.ts:174) fires only on strictly exceeding
the limit. -/
theorem quota_limit_boundary (sub : Subscription) (c : String)
    (hA : sub.isActive = true) :
    (sub.videosGenerated = sub.maxVideosPerMonth →
      indexOfStr complexityOrder c ≤
        indexOfStr complexityOrder (PLAN_LIMITS sub.plan).maxComplexity →
      canGenerateVideos sub c = Except.ok ⟨true, none, some 0⟩) ∧
    (sub.videosGenerated = sub.maxVideosPerMonth + 1 →
      canGenerateVideos sub c =
        Except.ok ⟨false, some "Your montly limit has reached!", some 0⟩) := by
  constructor
  · intro hEq hTier
    unfold canGenerateVideos
    rw [hA]
    rw [if_neg (by simp)]
    rw [if_neg (by omega)]
    simp only []
    rw [if_neg (by omega)]
    rw [hEq]
    simp
  · intro hEq
    unfold canGenerateVideos
    rw [hA]
    rw [if_neg (by simp)]
    rw [if_pos (by omega)]

/-- Witness for `quota_limit_boundary` at a concrete basic-plan account with
limit 5: at 5/5 generation is allowed, at 6/5 it is denied. -/
theorem quota_limit_boundary_witness :
    canGenerateVideos ⟨SubscriptionPlan.basic, true, 5, 5⟩ "basic" =
      Except.ok ⟨true, none, some 0⟩ ∧
    canGenerateVideos ⟨SubscriptionPlan.basic, true, 6, 5⟩ "basic" =
      Except.ok ⟨false, some "Your montly limit has reached!", some 0⟩ :=
  ⟨(quota_limit_boundary ⟨SubscriptionPlan.basic, true, 5, 5⟩ "basic" rfl).1
      rfl (by decide),
   (quota_limit_boundary ⟨SubscriptionPlan.basic, true, 6, 5⟩ "basic" rfl).2 rfl⟩

/-- C4 counterexample: for the usage record {plan basic, active := false,
0/5 videos}, `canGenerateVideos` throws ("Your subscription is inactive!",
user.model.ts:164) instead of returning a denial result, refuting the claim
that it returns `allowed = false` rather than raising. -/
theorem inactive_subscription_raises :
    canGenerateVideos ⟨SubscriptionPlan.basic, false, 0, 5⟩ "basic" =
      Except.error "Your subscription is inactive!" := rfl

/-- C4 amended: when the usage record has `active = false`,
`canGenerateVideos` throws an error stating the subscription is inactive
(rather than returning a denial result); for every record with
`active = true` it does not throw. -/
theorem canGenerateVideos_throw_behavior (sub : Subscription) (c : String) :
    (sub.isActive = false →
      canGenerateVideos sub c = Except.error "Your subscription is inactive!") ∧
    (sub.isActive = true → exceptIsOk (canGenerateVideos sub c) = true) := by
  constructor
  · intro hI
    unfold canGenerateVideos
    rw [hI]
    rfl
  · intro hA
    unfold canGenerateVideos
    rw [hA]
    rw [if_neg (by simp)]
    split
    · rfl
    · simp only []
      split <;> rfl

/-- Witness for `canGenerateVideos_throw_behavior` at concrete records. -/
theorem canGenerateVideos_throw_behavior_witness :
    canGenerateVideos ⟨SubscriptionPlan.basic, false, 3, 5⟩ "basic" =
      Except.error "Your subscription is inactive!" ∧
    exceptIsOk (canGenerateVideos ⟨SubscriptionPlan.basic, true, 3, 5⟩ "basic") = true :=
  ⟨(canGenerateVideos_throw_behavior ⟨SubscriptionPlan.basic, false, 3, 5⟩ "basic").1 rfl,
   (canGenerateVideos_throw_behavior ⟨SubscriptionPlan.basic, true, 3, 5⟩ "basic").2 rfl⟩

/-- C9: the complexity tiers are totally ordered basic < intermediate <
advanced via `indexOfStr`; for an active, under-quota account a requested
tier strictly above the plan's maximum is denied with a reason naming both
the tier and the plan; requesting "basic" is always allowed; and every
allowed decision carries `videosLeft = max - generated`. -/
theorem tier_gate_rules (sub : Subscription) (c : String)
    (hA : sub.isActive = true)
    (hQ : sub.videosGenerated ≤ sub.maxVideosPerMonth) :
    (indexOfStr complexityOrder "basic" < indexOfStr complexityOrder "intermediate" ∧
     indexOfStr complexityOrder "intermediate" < indexOfStr complexityOrder "advanced") ∧
    (indexOfStr complexityOrder c >
        indexOfStr complexityOrder (PLAN_LIMITS sub.plan).maxComplexity →
      canGenerateVideos sub c = Except.ok ⟨false,
        some ("Complexity " ++ c ++ " not allowed for " ++ planKey sub.plan), none⟩) ∧
    (canGenerateVideos sub "basic" = Except.ok ⟨true, none,
      some ((sub.maxVideosPerMonth : Int) - (sub.videosGenerated : Int))⟩) ∧
    (∀ r, canGenerateVideos sub c = Except.ok r → r.canGenerate = true →
      r.videosLeft = some ((sub.maxVideosPerMonth : Int) - (sub.videosGenerated : Int))) := by
  refine ⟨⟨by decide, by decide⟩, ?_, ?_, ?_⟩
  · intro hT
    unfold canGenerateVideos
    rw [hA]
    rw [if_neg (by simp)]
    rw [if_neg (by omega)]
    simp only []
    rw [if_pos hT]
  · unfold canGenerateVideos
    rw [hA]
    rw [if_neg (by simp)]
    rw [if_neg (by omega)]
    simp only []
    rw [if_neg ?_]
    cases sub.plan <;> decide
  · intro r hr hc
    unfold canGenerateVideos at hr
    rw [hA] at hr
    rw [if_neg (by simp)] at hr
    rw [if_neg (by omega)] at hr
    simp only [] at hr
    split at hr
    · cases hr
      cases hc
    · cases hr
      rfl

/-- Witness for `tier_gate_rules`: on a basic plan with 2/5 used, requesting
"advanced" is denied with a reason naming both tiers. -/
theorem tier_gate_rules_witness :
    canGenerateVideos ⟨SubscriptionPlan.basic, true, 2, 5⟩ "advanced" =
      Except.ok ⟨false, some "Complexity advanced not allowed for basic", none⟩ :=
  (tier_gate_rules ⟨SubscriptionPlan.basic, true, 2, 5⟩ "advanced" rfl
    (by decide)).2.1 (by decide)

/-- C10 (implicit): a complexity string outside
{"basic","intermediate","advanced"} has `indexOf = -1`, which never exceeds
the plan's maximum tier index, so for an active, under-quota account the
request passes the tier gate and is allowed. -/
theorem unknown_tier_passes (sub : Subscription) (c : String)
    (hA : sub.isActive = true)
    (hQ : sub.videosGenerated ≤ sub.maxVideosPerMonth)
    (h1 : c ≠ "basic") (h2 : c ≠ "intermediate") (h3 : c ≠ "advanced") :
    canGenerateVideos sub c = Except.ok ⟨true, none,
      some ((sub.maxVideosPerMonth : Int) - (sub.videosGenerated : Int))⟩ := by
  have hidx : indexOfStr complexityOrder c = -1 := by
    unfold complexityOrder
    unfold indexOfStr
    rw [if_neg (Ne.symm h1)]
    unfold indexOfStr
    rw [if_neg (Ne.symm h2)]
    unfold indexOfStr
    rw [if_neg (Ne.symm h3)]
    simp [indexOfStr]
  unfold canGenerateVideos
  rw [hA]
  rw [if_neg (by simp)]
  rw [if_neg (by omega)]
  simp only []
  rw [hidx]
  rw [if_neg ?_]
  cases sub.plan <;> decide

/-- Witness for `unknown_tier_passes`: the unrecognized complexity "ultra"
is allowed on a fresh basic-plan account. -/
theorem unknown_tier_passes_witness :
    canGenerateVideos ⟨SubscriptionPlan.basic, true, 0, 5⟩ "ultra" =
      Except.ok ⟨true, none, some 5⟩ :=
  unknown_tier_passes ⟨SubscriptionPlan.basic, true, 0, 5⟩ "ultra" rfl
    (by decide) (by decide) (by decide) (by decide)

/-! ### Theorems about the render executor -/

/-- The `runManim` promise by itself does classify the renderer outcome:
exit 0 resolves with the output path, anything else rejects.  (Not a claim
theorem; it documents that the defect established by
`generateVideo_ignores_renderer` lies in `generateVideo`, not here.) -/
theorem runManim_classifies (p : String) :
    runManim (ProcOutcome.exited 0) p = Except.ok p ∧
    runManim (ProcOutcome.exited 1) p = Except.error "Manim process failed with code" ∧
    runManim ProcOutcome.spawnFailed p = Except.error "Failed to start manim process" ∧
    runManim ProcOutcome.timedOut p = Except.error "Video generation timeout" :=
  ⟨rfl, rfl, rfl, rfl⟩

/-- C1: because `generateVideo` never awaits the `runManim` promise
(manim.service.ts:52), its returned response is identical for every renderer
outcome, and it reports `status = "completed"` even when the renderer exited
non-zero, failed to spawn, or timed out — evaluating the code at the failing
inputs of the claim. -/
theorem generateVideo_ignores_renderer (videoId : String) (fsb : FsBehavior)
    (o o₂ : ProcOutcome) :
    generateVideo videoId fsb o = generateVideo videoId fsb o₂ ∧
    (generateVideo videoId ⟨none, none⟩ (ProcOutcome.exited 1)).response.status
      = "completed" ∧
    (generateVideo videoId ⟨none, none⟩ ProcOutcome.spawnFailed).response.status
      = "completed" ∧
    (generateVideo videoId ⟨none, none⟩ ProcOutcome.timedOut).response.status
      = "completed" := by
  refine ⟨?_, rfl, rfl, rfl⟩
  unfold generateVideo
  cases h : fsb.writeError <;> rfl

/-- C6 counterexample: when the renderer would succeed (`exited 0`) but the
`fs.unlink` cleanup throws, `generateVideo` returns `status:"failed"`
carrying the unlink error, and the temp source file was not deleted — the
cleanup failure replaces the job's outcome, refuting the claim that deletion
failures never mask the result and that the file is deleted on every exit
path. -/
theorem cleanup_failure_masks_outcome :
    (generateVideo "vid0" ⟨none, some "unlink: EPERM"⟩
        (ProcOutcome.exited 0)).response.status = "failed" ∧
    (generateVideo "vid0" ⟨none, some "unlink: EPERM"⟩
        (ProcOutcome.exited 0)).response.error = some "unlink: EPERM" ∧
    (generateVideo "vid0" ⟨none, some "unlink: EPERM"⟩
        (ProcOutcome.exited 0)).tempFileDeleted = false :=
  ⟨rfl, rfl, rfl⟩

/-- C6 amended: the temp source file is unlinked exactly when the write
succeeded (the unlink happens right after spawning the renderer, without
awaiting it); when write and unlink both succeed the file is deleted and
the job reports "completed"; but when the unlink itself throws, the job is
reported failed with the unlink error — the cleanup failure becomes the
returned outcome — and when the write fails no unlink is attempted. -/
theorem generateVideo_cleanup (videoId : String) (fsb : FsBehavior)
    (o : ProcOutcome) :
    ((generateVideo videoId fsb o).unlinkAttempted = fsb.writeError.isNone) ∧
    (fsb.writeError = none → fsb.unlinkError = none →
      (generateVideo videoId fsb o).tempFileDeleted = true ∧
      (generateVideo videoId fsb o).response.status = "completed") ∧
    (∀ msg, fsb.writeError = none → fsb.unlinkError = some msg →
      (generateVideo videoId fsb o).response = ⟨videoId, "failed", none, some msg⟩ ∧
      (generateVideo videoId fsb o).tempFileDeleted = false) := by
  refine ⟨?_, ?_, ?_⟩
  · unfold generateVideo
    cases h : fsb.writeError <;> simp [h]
    cases h2 : fsb.unlinkError <;> rfl
  · intro hw hu
    unfold generateVideo
    rw [hw, hu]
    exact ⟨rfl, rfl⟩
  · intro msg hw hu
    unfold generateVideo
    rw [hw, hu]
    exact ⟨rfl, rfl⟩

/-- Witness for `generateVideo_cleanup` at a concrete failing unlink. -/
theorem generateVideo_cleanup_witness :
    (generateVideo "v" ⟨none, some "e"⟩ (ProcOutcome.exited 0)).response =
      ⟨"v", "failed", none, some "e"⟩ ∧
    (generateVideo "v" ⟨none, some "e"⟩ (ProcOutcome.exited 0)).tempFileDeleted = false :=
  (generateVideo_cleanup "v" ⟨none, some "e"⟩ (ProcOutcome.exited 0)).2.2 "e" rfl rfl

/-! ### Theorems about the usage store -/

/-- C7: `increaseVideoCount` is a no-op on every database state — its
`updateOne` filter `{ _id: new Object(userId) }` wraps the id as a string
value, which never matches a stored `ObjectId`, so no account's
`videosGenerated` counter is ever incremented and no `updatedAt` is touched
(in the end-to-end scenario a counter starting at 0 stays 0, not 1). -/
theorem increaseVideoCount_noop (userId : String) (now : Nat)
    (db : List StoredUser) :
    increaseVideoCount userId now db = db := by
  unfold increaseVideoCount
  induction db with
  | nil => rfl
  | cons u us ih =>
    unfold updateFirst
    rw [if_neg (by simp [bsonIdMatches])]
    unfold increaseVideoCount at ih
    rw [ih]

/-! ### Theorems about the artifact store -/

/-- C8 counterexample: when the presigned-URL call's promise rejects, the
rejection propagates out of `getVideoUrl` (the call is not awaited inside
the try/catch), so the caller observes an exception instead of the empty
string — refuting the claim that `getVideoUrl` never raises on any
underlying failure. -/
theorem getVideoUrl_propagates_rejection :
    getVideoUrl "v1" "u1" 3600 rejectingPresign =
      Except.error "connection reset" := rfl

/-- C8 amended: `getVideoUrl` performs no state mutation and computes the
deterministic object key; a synchronous throw of the presigned-URL call is
caught and yields the empty string; a resolved promise yields its URL; but
a rejected promise propagates to the caller, because the source returns the
un-awaited promise from inside the try block. -/
theorem getVideoUrl_behavior (videoId userId : String) (e : Nat)
    (presign : String → Nat → AsyncResult) :
    (∀ url, presign (videoObjectName videoId userId) e = AsyncResult.resolved url →
      getVideoUrl videoId userId e presign = Except.ok url) ∧
    (∀ msg, presign (videoObjectName videoId userId) e = AsyncResult.thrownSync msg →
      getVideoUrl videoId userId e presign = Except.ok "") ∧
    (∀ msg, presign (videoObjectName videoId userId) e = AsyncResult.rejected msg →
      getVideoUrl videoId userId e presign = Except.error msg) := by
  refine ⟨?_, ?_, ?_⟩ <;> intro m h <;> unfold getVideoUrl <;> rw [h]

/-- Witness for `getVideoUrl_behavior`: a synchronous throw is caught and
yields the empty string. -/
theorem getVideoUrl_behavior_witness :
    getVideoUrl "v1" "u1" 3600 throwingPresign = Except.ok "" :=
  (getVideoUrl_behavior "v1" "u1" 3600 throwingPresign).2.1 "invalid expiry" rfl

/-! ### Substring lemmas for the normalizer -/

/-- A list starts with `pat` iff `pat` is a literal prefix. -/
theorem startsWithL_iff (l pat : List Char) :
    startsWithL l pat = true ↔ ∃ t, l = pat ++ t := by
  induction pat generalizing l with
  | nil =>
    cases l <;> simp [startsWithL]
  | cons p ps ih =>
    cases l with
    | nil => simp [startsWithL]
    | cons a as =>
      simp only [startsWithL, Bool.and_eq_true, beq_iff_eq, ih]
      constructor
      · rintro ⟨rfl, t, rfl⟩
        exact ⟨t, rfl⟩
      · rintro ⟨t, h⟩
        injection h with h1 h2
        exact ⟨h1, t, h2⟩

/-- A list contains `pat` iff `pat` occurs as an infix. -/
theorem containsL_iff (pat l : List Char) :
    containsL pat l = true ↔ ∃ a b, l = a ++ pat ++ b := by
  induction l with
  | nil =>
    simp only [containsL, List.isEmpty_iff]
    constructor
    · rintro rfl
      exact ⟨[], [], rfl⟩
    · rintro ⟨a, b, h⟩
      have h2 := h.symm
      simp only [List.append_assoc, List.append_eq_nil] at h2
      exact h2.2.1
  | cons c cs ih =>
    simp only [containsL, Bool.or_eq_true, ih]
    constructor
    · rintro (h | ⟨a, b, rfl⟩)
      · obtain ⟨t, ht⟩ := (startsWithL_iff _ _).mp h
        exact ⟨[], t, by simpa using ht⟩
      · exact ⟨c :: a, b, rfl⟩
    · rintro ⟨a, b, h⟩
      cases a with
      | nil =>
        left
        exact (startsWithL_iff _ _).mpr ⟨b, by simpa using h⟩
      | cons a₀ as =>
        right
        injection h with h1 h2
        exact ⟨as, b, h2⟩

/-- Containment follows from a prefix occurrence. -/
theorem containsL_of_startsWithL (pat l : List Char)
    (h : startsWithL l pat = true) : containsL pat l = true := by
  obtain ⟨t, rfl⟩ := (startsWithL_iff _ _).mp h
  exact (containsL_iff _ _).mpr ⟨[], t, rfl⟩

/-- Containment is preserved by consing a character in front. -/
theorem containsL_cons (pat l : List Char) (c : Char)
    (h : containsL pat l = true) : containsL pat (c :: l) = true := by
  simp [containsL, h]

/-- Containment is preserved by prepending a list. -/
theorem containsL_append_left (pat l a : List Char)
    (h : containsL pat l = true) : containsL pat (a ++ l) = true := by
  induction a with
  | nil => exact h
  | cons x xs ih => exact containsL_cons _ _ _ ih

/-- Containment is preserved by appending a list. -/
theorem containsL_append_right (pat l b : List Char)
    (h : containsL pat l = true) : containsL pat (l ++ b) = true := by
  obtain ⟨x, y, rfl⟩ := (containsL_iff _ _).mp h
  refine (containsL_iff _ _).mpr ⟨x, y ++ b, by simp⟩

/-- When the pattern opens with a non-whitespace character, containment
survives dropping leading whitespace. -/
theorem containsL_dropWhile_ws (c : Char) (cs l : List Char)
    (hc : isWs c = false) (h : containsL (c :: cs) l = true) :
    containsL (c :: cs) (l.dropWhile isWs) = true := by
  induction l with
  | nil => simp [containsL] at h
  | cons a as ih =>
    have h' : startsWithL (a :: as) (c :: cs) = true ∨ containsL (c :: cs) as = true := by
      simpa [containsL] using h
    by_cases hws : isWs a = true
    · rw [List.dropWhile_cons, hws, if_pos rfl]
      apply ih
      rcases h' with hsw | hcs
      · exfalso
        have hac : a = c ∧ startsWithL as cs = true := by
          simpa [startsWithL] using hsw
        rw [hac.1, hc] at hws
        cases hws
      · exact hcs
    · have hws' : isWs a = false := by
        cases hh : isWs a
        · rfl
        · exact absurd hh hws
      rw [List.dropWhile_cons, hws']
      simp only [Bool.false_eq_true, if_false]
      exact h

/-- Containment is preserved under reversing both the pattern and the
text. -/
theorem containsL_reverse (pat l : List Char) (h : containsL pat l = true) :
    containsL pat.reverse l.reverse = true := by
  obtain ⟨a, b, rfl⟩ := (containsL_iff _ _).mp h
  refine (containsL_iff _ _).mpr ⟨b.reverse, a.reverse, ?_⟩
  simp [List.reverse_append]

/-- The import pattern survives a JavaScript `trim` of any line containing
it (its first and last characters are not whitespace). -/
theorem containsL_trim_import (l : List Char)
    (h : containsL importPat l = true) :
    containsL importPat (trimWs l) = true := by
  have hfc : importPat = 'f' :: "rom manim import".toList := by decide
  have h1 : containsL importPat (trimLeftWs l) = true := by
    rw [hfc] at h ⊢
    exact containsL_dropWhile_ws _ _ _ (by decide) h
  have h2 : containsL importPat.reverse (trimLeftWs l).reverse = true :=
    containsL_reverse _ _ h1
  have hrc : importPat.reverse = 't' :: "from manim impor".toList.reverse := by decide
  have h3 : containsL importPat.reverse ((trimLeftWs l).reverse.dropWhile isWs) = true := by
    rw [hrc] at h2 ⊢
    exact containsL_dropWhile_ws _ _ _ (by decide) h2
  have h4 := containsL_reverse _ _ h3
  rw [List.reverse_reverse] at h4
  exact h4

/-- A list containing the (non-empty) import pattern is non-empty. -/
theorem ne_nil_of_contains_import (l : List Char)
    (h : containsL importPat l = true) : l ≠ [] := by
  intro he
  rw [he] at h
  exact absurd h (by decide)

/-- The output of `splitLines` is never the empty list. -/
theorem splitLines_ne_nil (l : List Char) : splitLines l ≠ [] := by
  cases l with
  | nil => simp [splitLines]
  | cons c cs =>
    unfold splitLines
    split
    · simp
    · split <;> simp

/-- The head of a non-empty list (with default) is a member. -/
theorem headD_mem_of_ne_nil (xs : List (List Char)) (h : xs ≠ []) :
    xs.headD [] ∈ xs := by
  cases xs with
  | nil => exact absurd rfl h
  | cons x xs => exact List.mem_cons_self x xs

/-- Joining lines preserves containment witnessed by any member line. -/
theorem contains_joinLines_of_mem (pat line : List Char)
    (ls : List (List Char)) (hm : line ∈ ls)
    (h : containsL pat line = true) :
    containsL pat (joinLines ls) = true := by
  induction ls with
  | nil => cases hm
  | cons x xs ih =>
    cases xs with
    | nil =>
      have hx : line = x := by simpa using hm
      rw [joinLines, ← hx]
      exact h
    | cons y ys =>
      rw [joinLines]
      rcases List.mem_cons.mp hm with rfl | hm2
      · exact containsL_append_right _ _ _ h
      · exact containsL_append_left _ _ _ (containsL_cons _ _ _ (ih hm2))

/-- The empty pattern is contained in every list. -/
theorem containsL_nil_pat (l : List Char) : containsL [] l = true := by
  cases l <;> rfl

/-- A newline-free prefix of the text is a prefix of its first line. -/
theorem startsWith_head_splitLines (pat : List Char)
    (hnl : ∀ c ∈ pat, c ≠ '\n') :
    ∀ l : List Char, startsWithL l pat = true →
      startsWithL ((splitLines l).headD []) pat = true := by
  induction pat with
  | nil =>
    intro l _
    cases h : (splitLines l).headD [] <;> rfl
  | cons p ps ih =>
    intro l h
    cases l with
    | nil => simp [startsWithL] at h
    | cons a as =>
      have h' : a = p ∧ startsWithL as ps = true := by
        simpa [startsWithL] using h
      have hpn : p ≠ '\n' := hnl p (List.mem_cons_self _ _)
      have han : (a == '\n') = false := by
        rw [h'.1]
        exact beq_eq_false_iff_ne.mpr hpn
      unfold splitLines
      rw [han]
      simp only [Bool.false_eq_true, if_false]
      cases hs : splitLines as with
      | nil => exact absurd hs (splitLines_ne_nil as)
      | cons L Ls =>
        have hih := ih (fun c hc => hnl c (List.mem_cons_of_mem _ hc)) as h'.2
        rw [hs] at hih
        simp only [List.headD_cons] at hih
        show startsWithL (a :: L) (p :: ps) = true
        simp [startsWithL, h'.1, hih]

/-- When the pattern is newline-free, containment in the text yields
containment in one of its lines. -/
theorem containsL_splitLines (pat : List Char)
    (hnl : ∀ c ∈ pat, c ≠ '\n') :
    ∀ l : List Char, containsL pat l = true →
      ∃ line ∈ splitLines l, containsL pat line = true := by
  intro l
  induction l with
  | nil =>
    intro h
    exact ⟨[], by simp [splitLines], h⟩
  | cons a as ih =>
    intro h
    have h' : startsWithL (a :: as) pat = true ∨ containsL pat as = true := by
      simpa [containsL] using h
    rcases h' with hsw | hcs
    · by_cases ha : a = '\n'
      · cases pat with
        | nil =>
          refine ⟨(splitLines (a :: as)).headD [], ?_, ?_⟩
          · exact headD_mem_of_ne_nil _ (splitLines_ne_nil _)
          · exact containsL_nil_pat _
        | cons p ps =>
          have h2 : a = p ∧ startsWithL as ps = true := by
            simpa [startsWithL] using hsw
          exact absurd (ha ▸ h2.1.symm : p = '\n')
            (hnl p (List.mem_cons_self _ _))
      · refine ⟨(splitLines (a :: as)).headD [], ?_, ?_⟩
        · exact headD_mem_of_ne_nil _ (splitLines_ne_nil _)
        · exact containsL_of_startsWithL _ _
            (startsWith_head_splitLines pat hnl (a :: as) hsw)
    · obtain ⟨line, hm, hc⟩ := ih hcs
      by_cases ha : a = '\n'
      · refine ⟨line, ?_, hc⟩
        subst ha
        unfold splitLines
        rw [if_pos (by simp)]
        exact List.mem_cons_of_mem _ hm
      · cases hs : splitLines as with
        | nil => exact absurd hs (splitLines_ne_nil as)
        | cons L Ls =>
          have han : (a == '\n') = false := beq_eq_false_iff_ne.mpr ha
          rw [hs] at hm
          rcases List.mem_cons.mp hm with rfl | hm2
          · refine ⟨a :: line, ?_, containsL_cons _ _ _ hc⟩
            unfold splitLines
            rw [han]
            simp only [Bool.false_eq_true, if_false]
            rw [hs]
            exact List.mem_cons_self _ _
          · refine ⟨line, ?_, hc⟩
            unfold splitLines
            rw [han]
            simp only [Bool.false_eq_true, if_false]
            rw [hs]
            exact List.mem_cons_of_mem _ hm2

/-- Every rewrite `fixLines` applies to a line (identity, or trim plus an
indentation prefix) preserves containment of the import pattern, so some
output line still contains it. -/
theorem fixLines_preserves_import (ls : List (List Char)) :
    ∀ ic im : Bool, (∃ line ∈ ls, containsL importPat line = true) →
      ∃ l₂ ∈ fixLines ic im ls, containsL importPat l₂ = true := by
  induction ls with
  | nil =>
    rintro ic im ⟨line, hm, _⟩
    cases hm
  | cons x xs ih =>
    rintro ic im ⟨line, hm, hc⟩
    rcases List.mem_cons.mp hm with rfl | hm2
    · unfold fixLines
      split
      · exact ⟨line, List.mem_cons_self _ _, hc⟩
      · split
        · exact ⟨_, List.mem_cons_self _ _,
            containsL_append_left _ _ _ (containsL_trim_import _ hc)⟩
        · split
          · refine ⟨_, List.mem_cons_self _ _, ?_⟩
            split
            · exact containsL_append_left _ _ _ (containsL_trim_import _ hc)
            · exact hc
          · exact ⟨line, List.mem_cons_self _ _, hc⟩
    · have ht : ∃ l ∈ xs, containsL importPat l = true := ⟨line, hm2, hc⟩
      unfold fixLines
      split
      · obtain ⟨l₂, hm₃, hc₃⟩ := ih true im ht
        exact ⟨l₂, List.mem_cons_of_mem _ hm₃, hc₃⟩
      · split
        · obtain ⟨l₂, hm₃, hc₃⟩ := ih ic true ht
          exact ⟨l₂, List.mem_cons_of_mem _ hm₃, hc₃⟩
        · split
          · obtain ⟨l₂, hm₃, hc₃⟩ := ih ic im ht
            exact ⟨l₂, List.mem_cons_of_mem _ hm₃, hc₃⟩
          · obtain ⟨l₂, hm₃, hc₃⟩ := ih ic im ht
            exact ⟨l₂, List.mem_cons_of_mem _ hm₃, hc₃⟩

/-- Indentation repair preserves the framework import. -/
theorem fixIndentationL_contains_import (code : List Char)
    (h : containsL importPat code = true) :
    containsL importPat (fixIndentationL code) = true := by
  obtain ⟨line, hm, hc⟩ :=
    containsL_splitLines importPat (by decide) code h
  obtain ⟨l₂, hm₂, hc₂⟩ :=
    fixLines_preserves_import (splitLines code) false false ⟨line, hm, hc⟩
  exact contains_joinLines_of_mem _ _ _ hm₂ hc₂

/-- Import repair guarantees the framework import. -/
theorem ensureImport_contains (code : List Char) :
    containsL importPat (ensureImport code) = true := by
  unfold ensureImport
  split
  · assumption
  · have hsplit : "from manim import *\n\n".toList = importPat ++ " *\n\n".toList := by
      decide
    rw [hsplit, List.append_assoc]
    exact (containsL_iff _ _).mpr ⟨[], " *\n\n".toList ++ code, rfl⟩

/-- Class-wrapper repair preserves the framework import. -/
theorem ensureSceneClass_contains (code : List Char)
    (h : containsL importPat code = true) :
    containsL importPat (ensureSceneClass code) = true := by
  unfold ensureSceneClass
  split
  · have hsplit :
        "from manim import *\n\nclass GeneratedAnimation(Scene):\n    def construct(self):\n".toList =
          importPat ++ " *\n\nclass GeneratedAnimation(Scene):\n    def construct(self):\n".toList := by
      decide
    rw [hsplit, List.append_assoc]
    exact (containsL_iff _ _).mpr ⟨[], _, rfl⟩
  · exact h

/-- The full `cleanManimCode` pipeline always yields code containing the
framework import. -/
theorem cleanManimCodeL_contains_import (code : List Char) :
    containsL importPat (cleanManimCodeL code) = true :=
  fixIndentationL_contains_import _
    (ensureSceneClass_contains _ (ensureImport_contains code))

/-- The final code of the normalizer equals the cleaned extracted code (the
`code || fallback` guard never fires, because the cleaned code contains
the import and hence is non-empty). -/
theorem normalizeCodeL_eq (response : List Char) :
    normalizeCodeL response = cleanManimCodeL (extractCodeL response) := by
  unfold normalizeCodeL
  rw [if_neg ?_]
  simp only [List.isEmpty_iff]
  exact ne_nil_of_contains_import _
    (cleanManimCodeL_contains_import (extractCodeL response))

/-- The duration loop always lands in [1, 300] (an accepted match is in
(0, 300], the default is 10). -/
theorem pickDuration_bounds (os : List (Option Nat)) :
    1 ≤ pickDuration os ∧ pickDuration os ≤ 300 := by
  induction os with
  | nil => exact ⟨by decide, by decide⟩
  | cons o rest ih =>
    cases o with
    | none => exact ih
    | some d =>
      have hred : pickDuration (some d :: rest) =
          if 0 < d ∧ d ≤ 300 then d else pickDuration rest := rfl
      rw [hred]
      split
      · next h => exact ⟨h.1, h.2⟩
      · exact ih

/-- When no pattern's captured value is acceptable, the duration loop
returns the default 10. -/
theorem pickDuration_default (os : List (Option Nat))
    (h : ∀ o ∈ os, acceptable o = false) : pickDuration os = 10 := by
  induction os with
  | nil => rfl
  | cons o rest ih =>
    cases o with
    | none => exact ih (fun o ho => h o (List.mem_cons_of_mem _ ho))
    | some d =>
      have hred : pickDuration (some d :: rest) =
          if 0 < d ∧ d ≤ 300 then d else pickDuration rest := rfl
      rw [hred]
      rw [if_neg ?_]
      · exact ih (fun o ho => h o (List.mem_cons_of_mem _ ho))
      · intro hcon
        have hd := h (some d) (List.mem_cons_self _ _)
        simp [acceptable] at hd
        omega

/-! ### Theorems about the source normalizer -/

/-- C2: for every raw input string (including empty and whitespace-only
inputs and well-formed scripts), the normalizer returns a non-empty
executable text that contains the framework import "from manim import",
and an estimated duration in [1, 300], equal to the default 10 whenever no
duration pattern captures a value in (0, 300].  Totality is intrinsic:
every stage of the model is a total function. -/
theorem normalizer_total (response : String) :
    (parseGeminiResponse response).code ≠ "" ∧
    strIncludes (parseGeminiResponse response).code "from manim import" = true ∧
    1 ≤ (parseGeminiResponse response).estimatedDuration ∧
    (parseGeminiResponse response).estimatedDuration ≤ 300 ∧
    ((∀ o ∈ durationCandidates response.toList, acceptable o = false) →
      (parseGeminiResponse response).estimatedDuration = 10) := by
  have hcode : (parseGeminiResponse response).code =
      ⟨normalizeCodeL response.toList⟩ := rfl
  have hl : containsL importPat (normalizeCodeL response.toList) = true := by
    rw [normalizeCodeL_eq]
    exact cleanManimCodeL_contains_import _
  refine ⟨?_, ?_, ?_, ?_, ?_⟩
  · rw [hcode]
    intro he
    exact ne_nil_of_contains_import _ hl (congrArg String.data he)
  · rw [hcode]
    exact hl
  · exact (pickDuration_bounds (durationCandidates response.toList)).1
  · exact (pickDuration_bounds (durationCandidates response.toList)).2
  · intro hnone
    exact pickDuration_default _ hnone

/-- Witness for `normalizer_total`: the empty raw input has no duration
match, so the default 10 is returned. -/
theorem normalizer_total_witness :
    (parseGeminiResponse "").estimatedDuration = 10 :=
  (normalizer_total "").2.2.2.2 (by decide)

/-- C5 counterexample: normalizing the already-normalized output of
`sampleRaw` changes it — the second pass finds no code fence, falls back to
the structural-signal line filter, and drops the method-body line
`circle = Circle(radius=1)` (it contains no signal), so normalization is
not idempotent. -/
theorem normalize_not_idempotent :
    (parseGeminiResponse ((parseGeminiResponse sampleRaw).code)).code ≠
      (parseGeminiResponse sampleRaw).code := by
  decide

/-- C5 amended: when the raw input contains a closed fenced code block whose
trimmed content is non-empty, the extraction selects exactly that content
(before import/wrapper repair), and the normalizer's final code is the
`cleanManimCode` repair of it — the structural-signal collection and the
fallback script are bypassed.  Idempotence, however, fails (see
`normalize_not_idempotent`): the normalized output carries no fence, so
re-normalizing it falls back to the signal-line filter and can drop body
lines. -/
theorem fenced_block_priority (response c : String)
    (h : firstFencedBlock response = some c) (hne : c ≠ "") :
    extractCode response = c ∧
    (parseGeminiResponse response).code = cleanManimCode c := by
  obtain ⟨cl⟩ := c
  have hcl : cl ≠ [] := by
    intro hh
    subst hh
    exact hne rfl
  have hl : firstFencedBlockL response.toList = some cl := by
    unfold firstFencedBlock at h
    cases hf : firstFencedBlockL response.toList with
    | none =>
      rw [hf] at h
      cases h
    | some l =>
      rw [hf] at h
      simp only [Option.map, Option.some.injEq] at h
      exact congrArg some (congrArg String.data h)
  have hemp : cl.isEmpty = false := by
    cases cl with
    | nil => exact absurd rfl hcl
    | cons _ _ => rfl
  have h1 : extractCodeL response.toList = cl := by
    unfold extractCodeL
    rw [hl]
    show (if (!cl.isEmpty) = true then cl else _) = cl
    rw [hemp]
    rfl
  constructor
  · exact congrArg String.mk h1
  · show (⟨normalizeCodeL response.toList⟩ : String) = ⟨cleanManimCodeL cl⟩
    rw [normalizeCodeL_eq, h1]

/-- Witness for `fenced_block_priority` at the concrete raw input
`sampleRaw`, whose fenced block is `circle = Circle(radius=1)`. -/
theorem fenced_block_priority_witness :
    extractCode sampleRaw = "circle = Circle(radius=1)" ∧
    (parseGeminiResponse sampleRaw).code = cleanManimCode "circle = Circle(radius=1)" :=
  fenced_block_priority sampleRaw "circle = Circle(radius=1)" (by decide) (by decide)
